import Mathlib

/-!
Shallow embedding of `jsonrpc-http-server` (`src/lib.rs`): the per-connection
HTTP handler `ServerHandler` with its four hyper event callbacks
(`on_request`, `on_request_readable`, `on_response`, `on_response_writable`),
the CORS header construction `response_headers`, and the panic-notification
logic of `impl Drop for ServerHandler`.

Modelling conventions:
- Buffers (`self.request`, `self.response`) are `List Char`, mirroring the
  Rust `String` values byte-for-byte for the purposes of the claims.
- The JSON-RPC dispatcher (`self.jsonrpc_handler.handle_request`), an external
  collaborator stored in the handler struct in the source, is passed as an
  explicit function argument so that handler states stay decidably comparable.
- Each callback returns, besides the updated handler and the requested
  `Next` action, an instrumentation component recording the observable
  effect of the callback: the argument of the dispatcher invocation it
  performed (if any) for `on_request_readable`, and the bytes it pushed to
  the connection for `on_response_writable`.
- `decoder.read_to_string` is modelled by its contract: a call either returns
  `Ok n` after appending `n` bytes (hyper signals end-of-body via a
  zero-length read, the only way `Ok` is produced), or returns `Err e` after
  appending the bytes it had consumed before the error (`read_to_string`
  retains already-read valid data in the target buffer on an I/O error).
  `encoder.write` on `Ok k` consumes the first `k` bytes of the given slice,
  with `k` at most the slice length (the `io::Write` contract).
-/

namespace JsonRpcHttp

/-- The hyper `Next` values the handler actually produces:
`Next::read()`, `Next::write()`, `Next::end()`. -/
inductive Next where
  | read
  | write
  | end_
deriving DecidableEq, Repr

/-- HTTP methods (hyper `Method`); `extension` stands for
`Method::Extension(String)`. The handler only distinguishes
`Options`, `Post` and "anything else". -/
inductive Method where
  | options
  | get
  | post
  | head
  | put
  | delete
  | connect
  | patch
  | extension (name : String)
deriving DecidableEq, Repr

/-- `hyper::header::AccessControlAllowOrigin`. -/
inductive AccessControlAllowOrigin where
  | any
  | null
  | value (origin : String)
deriving DecidableEq, Repr

/-- The response headers the handler sets in `response_headers`
(hyper `Headers`, restricted to the four headers the code touches). -/
structure Headers where
  allow : List Method
  content_type : String
  access_control_allow_headers : List String
  access_control_allow_origin : Option AccessControlAllowOrigin
deriving DecidableEq, Repr

/-- Response status as the handler influences it: hyper's default is the
success status (`200 OK`); the only status the code ever sets is
`StatusCode::MethodNotAllowed`. -/
inductive StatusCode where
  | ok
  | methodNotAllowed
deriving DecidableEq, Repr

/-- What `on_response` fixes about the outgoing `Response`. -/
structure ResponseInfo where
  headers : Headers
  status : StatusCode
deriving DecidableEq, Repr

/-- The per-connection handler state (`struct ServerHandler`), without the
two external-collaborator handles (`jsonrpc_handler`, `panic_handler`),
which are modelled separately. -/
structure ServerHandler where
  cors_domain : Option AccessControlAllowOrigin
  request : List Char
  response : Option (List Char)
  write_pos : Nat
deriving DecidableEq, Repr

/-- The external JSON-RPC dispatcher `IoHandler::handle_request`:
request text in, optional response text out. -/
def Dispatcher : Type := List Char → Option (List Char)

/-- `ServerHandler::new`: empty request buffer, no response, cursor 0. -/
def ServerHandler.new (cors_domain : Option AccessControlAllowOrigin) : ServerHandler :=
  { cors_domain := cors_domain
    request := []
    response := none
    write_pos := 0 }

/-- `ServerHandler::response_headers`: `Allow: OPTIONS, POST`, JSON
content-type, the three allowed CORS request headers, and the configured
`Access-Control-Allow-Origin` value iff one is configured. -/
def response_headers (h : ServerHandler) : Headers :=
  { allow := [Method.options, Method.post]
    content_type := "application/json"
    access_control_allow_headers := ["origin", "content-type", "accept"]
    access_control_allow_origin := h.cors_domain }

/-- `on_request`: OPTIONS sets an empty response body and asks to write;
POST asks to read; anything else asks to write with `response` left `None`. -/
def on_request (h : ServerHandler) (m : Method) : ServerHandler × Next :=
  match m with
  | Method.options => ({ h with response := some [] }, Next.write)
  | Method.post => (h, Next.read)
  | _ => (h, Next.write)

/-- `std::io::ErrorKind`, restricted to the distinction the code makes. -/
inductive ErrorKind where
  | wouldBlock
  | other
deriving DecidableEq, Repr

/-- Outcome of one `decoder.read_to_string(&mut self.request)` call:
`ok s` — appended `s` and returned `Ok(s.len())` (zero-length only at
end-of-body); `err part k` — appended the already-consumed bytes `part`,
then returned `Err` of kind `k`. -/
inductive ReadResult where
  | ok (s : List Char)
  | err (part : List Char) (k : ErrorKind)
deriving DecidableEq, Repr

/-- `on_request_readable`: on `Ok(0)` dispatch the accumulated buffer, add a
trailing newline to a `Some` result, and switch to writing; on `Ok(_)` keep
reading; on `WouldBlock` keep reading; on any other error end the
connection.  The third component records the dispatcher invocation this
event performed (`some` argument) or `none`. -/
def on_request_readable (jsonrpc_handler : Dispatcher) (h : ServerHandler)
    (r : ReadResult) : ServerHandler × Next × Option (List Char) :=
  match r with
  | ReadResult.ok s =>
    let h' := { h with request := h.request ++ s }
    if s.isEmpty then
      ({ h' with response := (jsonrpc_handler h'.request).map (fun t => t ++ ['\n']) },
        Next.write, some h'.request)
    else
      (h', Next.read, none)
  | ReadResult.err part k =>
    let h' := { h with request := h.request ++ part }
    match k with
    | ErrorKind.wouldBlock => (h', Next.read, none)
    | ErrorKind.other => (h', Next.end_, none)

/-- `on_response`: always install `response_headers`; set status 405 iff no
response body was produced (hyper's default status is success); keep
writing. -/
def on_response (h : ServerHandler) : ResponseInfo × Next :=
  ({ headers := response_headers h
     status := if h.response.isNone then StatusCode.methodNotAllowed else StatusCode.ok },
    Next.write)

/-- Outcome of one `encoder.write(&bytes[self.write_pos..])` call:
`ok k` — wrote the first `k` bytes of the slice; `err k` — wrote nothing,
failed with kind `k`. -/
inductive WriteResult where
  | ok (k : Nat)
  | err (k : ErrorKind)
deriving DecidableEq, Repr

/-- `on_response_writable`: with no response body, end at once; with the
cursor at the end of the body, end; otherwise attempt a write: `Ok(0)` and
`WouldBlock` re-arm for writing, `Ok(k)` advances the cursor by `k` and
re-arms for writing, any other error ends the connection.  The third
component records the bytes this event pushed to the connection. -/
def on_response_writable (h : ServerHandler) (w : WriteResult) :
    ServerHandler × Next × List Char :=
  match h.response with
  | some response =>
    if response.length = h.write_pos then
      (h, Next.end_, [])
    else
      match w with
      | WriteResult.ok 0 => (h, Next.write, [])
      | WriteResult.ok (k + 1) =>
        ({ h with write_pos := h.write_pos + (k + 1) }, Next.write,
          (response.drop h.write_pos).take (k + 1))
      | WriteResult.err ErrorKind.wouldBlock => (h, Next.write, [])
      | WriteResult.err ErrorKind.other => (h, Next.end_, [])
  | none => (h, Next.end_, [])

/-- `impl Drop for ServerHandler`: the number of times the registered panic
callback is invoked when the handler is released, given whether the thread
is panicking and the current content of the shared registry slot. -/
def serverHandler_drop {α : Type} (panicking : Bool) (panic_handler : Option α) : Nat :=
  if panicking then
    match panic_handler with
    | some _ => 1
    | none => 0
  else 0

/-- Run a sequence of readable events, as a reactor honouring the returned
`Next` would: deliver events while the handler keeps requesting `read`,
stop at the first other request (or when the supplied events run out, with
`read` still pending).  Accumulates the dispatcher invocations in order. -/
def runReads (d : Dispatcher) (h : ServerHandler) :
    List ReadResult → ServerHandler × Next × List (List Char)
  | [] => (h, Next.read, [])
  | r :: rs =>
    let s := on_request_readable d h r
    match s.2.1 with
    | Next.read =>
      let rest := runReads d s.1 rs
      (rest.1, rest.2.1, s.2.2.toList ++ rest.2.2)
    | n => (s.1, n, s.2.2.toList)

/-- Run a sequence of writable events, delivering while the handler keeps
requesting `write`; accumulates the bytes written to the connection. -/
def runWrites (h : ServerHandler) :
    List WriteResult → ServerHandler × Next × List Char
  | [] => (h, Next.write, [])
  | w :: ws =>
    let s := on_response_writable h w
    match s.2.1 with
    | Next.write =>
      let rest := runWrites s.1 ws
      (rest.1, rest.2.1, s.2.2 ++ rest.2.2)
    | n => (s.1, n, s.2.2)

/-- A readable-event outcome after which `on_request_readable` requests
another read: a non-empty successful read, or a `WouldBlock` failure. -/
def keepsReading : ReadResult → Bool
  | ReadResult.ok s => !s.isEmpty
  | ReadResult.err _ ErrorKind.wouldBlock => true
  | ReadResult.err _ ErrorKind.other => false

/-- The bytes a `read_to_string` call appended to the request buffer. -/
def appended : ReadResult → List Char
  | ReadResult.ok s => s
  | ReadResult.err part _ => part

/-- Concatenation, in arrival order, of all bytes the given readable events
appended. -/
def joinAppended : List ReadResult → List Char
  | [] => []
  | r :: rs => appended r ++ joinAppended rs

/-- The `io::Write` contract for one write event against the current state:
a successful write consumes at most the length of the slice it was given. -/
def validWrite (h : ServerHandler) (w : WriteResult) : Bool :=
  match h.response, w with
  | some response, WriteResult.ok k => decide (k ≤ response.length - h.write_pos)
  | _, _ => true

/-- The `io::Write` contract along a whole event sequence. -/
def validWrites (h : ServerHandler) : List WriteResult → Bool
  | [] => true
  | w :: ws => validWrite h w && validWrites (on_response_writable h w).1 ws

/-! ### Helper lemmas -/

theorem joinAppended_append (a b : List ReadResult) :
    joinAppended (a ++ b) = joinAppended a ++ joinAppended b := by
  induction a with
  | nil => simp [joinAppended]
  | cons r rs ih => simp [joinAppended, ih]

theorem on_request_readable_keeps (d : Dispatcher) (h : ServerHandler)
    (r : ReadResult) (hk : keepsReading r = true) :
    on_request_readable d h r =
      ({ h with request := h.request ++ appended r }, Next.read, none) := by
  cases r with
  | ok s =>
    simp only [keepsReading, Bool.not_eq_true'] at hk
    simp [on_request_readable, appended, hk]
  | err part k =>
    cases k with
    | wouldBlock => simp [on_request_readable, appended]
    | other => simp [keepsReading] at hk

theorem runReads_keeps (d : Dispatcher) (rs : List ReadResult) :
    ∀ (h : ServerHandler) (rest : List ReadResult),
    (∀ r ∈ rs, keepsReading r = true) →
    runReads d h (rs ++ rest) =
      runReads d { h with request := h.request ++ joinAppended rs } rest := by
  induction rs with
  | nil =>
    intro h rest _
    simp [joinAppended]
  | cons r rs ih =>
    intro h rest hk
    have hr : keepsReading r = true := hk r (List.mem_cons_self r rs)
    have hrs : ∀ x ∈ rs, keepsReading x = true :=
      fun x hx => hk x (List.mem_cons_of_mem r hx)
    have step : runReads d h ((r :: rs) ++ rest) =
        runReads d { h with request := h.request ++ appended r } (rs ++ rest) := by
      simp [runReads, on_request_readable_keeps d h r hr]
    rw [step, ih { h with request := h.request ++ appended r } rest hrs]
    simp [joinAppended, List.append_assoc]

theorem runReads_complete (d : Dispatcher) (h : ServerHandler)
    (rs : List ReadResult) (hk : ∀ r ∈ rs, keepsReading r = true) :
    runReads d h (rs ++ [ReadResult.ok []]) =
      ({ h with
          request := h.request ++ joinAppended rs,
          response := (d (h.request ++ joinAppended rs)).map (fun t => t ++ ['\n']) },
        Next.write, [h.request ++ joinAppended rs]) := by
  rw [runReads_keeps d rs h [ReadResult.ok []] hk]
  simp [runReads, on_request_readable]

theorem runWrites_spec (resp : List Char) :
    ∀ (ws : List WriteResult) (h : ServerHandler),
    h.response = some resp →
    h.write_pos ≤ resp.length →
    validWrites h ws = true →
    (∀ w ∈ ws, w ≠ WriteResult.err ErrorKind.other) →
    (runWrites h ws).1.response = some resp
    ∧ h.write_pos ≤ (runWrites h ws).1.write_pos
    ∧ (runWrites h ws).1.write_pos ≤ resp.length
    ∧ resp.take (runWrites h ws).1.write_pos
        = resp.take h.write_pos ++ (runWrites h ws).2.2
    ∧ ((runWrites h ws).2.1 = Next.end_ → (runWrites h ws).1.write_pos = resp.length) := by
  intro ws
  induction ws with
  | nil =>
    intro h h1 h2 _ _
    simp [runWrites, h1, h2]
  | cons w ws ih =>
    intro h h1 h2 hv hne
    obtain ⟨c, q, ro, pos⟩ := h
    simp only at h1 h2
    subst h1
    by_cases hlen : resp.length = pos
    · have hstep : on_response_writable ⟨c, q, some resp, pos⟩ w =
          (⟨c, q, some resp, pos⟩, Next.end_, []) := by
        simp [on_response_writable, hlen]
      have hrun : runWrites (⟨c, q, some resp, pos⟩ : ServerHandler) (w :: ws) =
          (⟨c, q, some resp, pos⟩, Next.end_, []) := by
        simp [runWrites, hstep]
      rw [hrun]
      exact ⟨rfl, le_refl _, h2, by simp, fun _ => hlen.symm⟩
    · have hne2 : ∀ x ∈ ws, x ≠ WriteResult.err ErrorKind.other :=
        fun x hx => hne x (List.mem_cons_of_mem w hx)
      cases w with
      | ok k =>
        cases k with
        | zero =>
          have hstep : on_response_writable ⟨c, q, some resp, pos⟩ (WriteResult.ok 0) =
              (⟨c, q, some resp, pos⟩, Next.write, []) := by
            simp [on_response_writable, hlen]
          have hrun : runWrites (⟨c, q, some resp, pos⟩ : ServerHandler)
              (WriteResult.ok 0 :: ws) = runWrites ⟨c, q, some resp, pos⟩ ws := by
            simp [runWrites, hstep]
          have hv' := hv
          simp only [validWrites, Bool.and_eq_true, hstep] at hv'
          rw [hrun]
          exact ih ⟨c, q, some resp, pos⟩ rfl h2 hv'.2 hne2
        | succ k =>
          have hstep : on_response_writable ⟨c, q, some resp, pos⟩ (WriteResult.ok (k + 1)) =
              (⟨c, q, some resp, pos + (k + 1)⟩, Next.write,
                (resp.drop pos).take (k + 1)) := by
            simp [on_response_writable, hlen]
          have hrun : runWrites (⟨c, q, some resp, pos⟩ : ServerHandler)
              (WriteResult.ok (k + 1) :: ws) =
              ((runWrites ⟨c, q, some resp, pos + (k + 1)⟩ ws).1,
                (runWrites ⟨c, q, some resp, pos + (k + 1)⟩ ws).2.1,
                (resp.drop pos).take (k + 1)
                  ++ (runWrites ⟨c, q, some resp, pos + (k + 1)⟩ ws).2.2) := by
            simp [runWrites, hstep]
          have hv' := hv
          simp only [validWrites, validWrite, Bool.and_eq_true, decide_eq_true_eq,
            hstep] at hv'
          obtain ⟨hk, hv2⟩ := hv'
          have hpos2 : pos + (k + 1) ≤ resp.length := by omega
          obtain ⟨ih1, ih2, ih3, ih4, ih5⟩ :=
            ih ⟨c, q, some resp, pos + (k + 1)⟩ rfl hpos2 hv2 hne2
          have ih2' : pos + (k + 1) ≤
              (runWrites ⟨c, q, some resp, pos + (k + 1)⟩ ws).1.write_pos := ih2
          have ih4' : resp.take (runWrites ⟨c, q, some resp, pos + (k + 1)⟩ ws).1.write_pos
              = resp.take (pos + (k + 1))
                ++ (runWrites ⟨c, q, some resp, pos + (k + 1)⟩ ws).2.2 := ih4
          rw [hrun]
          refine ⟨ih1, ?_, ih3, ?_, ih5⟩
          · show pos ≤ (runWrites ⟨c, q, some resp, pos + (k + 1)⟩ ws).1.write_pos
            omega
          · show resp.take (runWrites ⟨c, q, some resp, pos + (k + 1)⟩ ws).1.write_pos
              = resp.take pos ++ ((resp.drop pos).take (k + 1)
                ++ (runWrites ⟨c, q, some resp, pos + (k + 1)⟩ ws).2.2)
            rw [ih4', List.take_add, List.append_assoc]
      | err k =>
        cases k with
        | wouldBlock =>
          have hstep : on_response_writable ⟨c, q, some resp, pos⟩
              (WriteResult.err ErrorKind.wouldBlock) =
              (⟨c, q, some resp, pos⟩, Next.write, []) := by
            simp [on_response_writable, hlen]
          have hrun : runWrites (⟨c, q, some resp, pos⟩ : ServerHandler)
              (WriteResult.err ErrorKind.wouldBlock :: ws) =
              runWrites ⟨c, q, some resp, pos⟩ ws := by
            simp [runWrites, hstep]
          have hv' := hv
          simp only [validWrites, Bool.and_eq_true, hstep] at hv'
          rw [hrun]
          exact ih ⟨c, q, some resp, pos⟩ rfl h2 hv'.2 hne2
        | other =>
          exact absurd rfl (hne _ (List.mem_cons_self _ _))

theorem on_request_write_pos (h : ServerHandler) (m : Method) :
    (on_request h m).1.write_pos = h.write_pos := by
  cases m <;> rfl

theorem on_request_readable_write_pos (d : Dispatcher) (h : ServerHandler)
    (r : ReadResult) : (on_request_readable d h r).1.write_pos = h.write_pos := by
  cases r with
  | ok s => by_cases hs : s.isEmpty <;> simp [on_request_readable, hs]
  | err part k => cases k <;> simp [on_request_readable]

theorem on_response_writable_mono (h : ServerHandler) (w : WriteResult) :
    h.write_pos ≤ (on_response_writable h w).1.write_pos := by
  obtain ⟨c, q, ro, pos⟩ := h
  cases ro with
  | none => simp [on_response_writable]
  | some resp =>
    by_cases hlen : resp.length = pos
    · simp [on_response_writable, hlen]
    · cases w with
      | ok k =>
        cases k with
        | zero => simp [on_response_writable, hlen]
        | succ k => simp [on_response_writable, hlen]
      | err e => cases e <;> simp [on_response_writable, hlen]

theorem on_response_writable_bound (h : ServerHandler) (w : WriteResult)
    (resp : List Char) (h1 : h.response = some resp)
    (h2 : h.write_pos ≤ resp.length) (h3 : validWrite h w = true) :
    (on_response_writable h w).1.response = some resp
    ∧ (on_response_writable h w).1.write_pos ≤ resp.length := by
  obtain ⟨c, q, ro, pos⟩ := h
  simp only at h1 h2 h3
  subst h1
  by_cases hlen : resp.length = pos
  · simp [on_response_writable, hlen, h2]
  · cases w with
    | ok k =>
      cases k with
      | zero => simp [on_response_writable, hlen, h2]
      | succ k =>
        simp only [validWrite, decide_eq_true_eq] at h3
        simp [on_response_writable, hlen]
        omega
    | err e => cases e <;> simp [on_response_writable, hlen, h2]

/-! ### Claims -/

/-- Claim C1: for a connection whose method is POST, given any sequence of
partial reads (non-empty successful reads or transient would-block
failures) followed by the terminating zero-length read, the dispatcher is
invoked exactly once — the invocation list is exactly one element — with
argument equal to the concatenation of all appended body bytes in arrival
order, and only at the zero-length read, after which the handler stops
reading and switches to writing. -/
theorem dispatcher_invoked_once_with_full_body
    (c : Option AccessControlAllowOrigin) (d : Dispatcher) (rs : List ReadResult)
    (hk : ∀ r ∈ rs, keepsReading r = true) :
    runReads d (on_request (ServerHandler.new c) Method.post).1
        (rs ++ [ReadResult.ok []]) =
      ((⟨c, joinAppended rs,
          (d (joinAppended rs)).map (fun t => t ++ ['\n']), 0⟩ : ServerHandler),
        Next.write, [joinAppended rs]) := by
  have h0 : (on_request (ServerHandler.new c) Method.post).1 = ServerHandler.new c := rfl
  rw [h0, runReads_complete d (ServerHandler.new c) rs hk]
  simp [ServerHandler.new]

/-- Witness for C1 at a concrete input: body delivered as a two-byte read
followed by a one-byte read salvaged from a would-block failure. -/
theorem dispatcher_invoked_once_with_full_body_witness :
    runReads (fun t => some t) (on_request (ServerHandler.new none) Method.post).1
        ([ReadResult.ok ['a', 'b'], ReadResult.err ['c'] ErrorKind.wouldBlock]
          ++ [ReadResult.ok []]) =
      ((⟨none, ['a', 'b', 'c'], some ['a', 'b', 'c', '\n'], 0⟩ : ServerHandler),
        Next.write, [['a', 'b', 'c']]) := by
  have := dispatcher_invoked_once_with_full_body none (fun t => some t)
    [ReadResult.ok ['a', 'b'], ReadResult.err ['c'] ErrorKind.wouldBlock] (by decide)
  simpa [joinAppended, appended] using this

/-- Claim C2: if the response body is set to `resp` and the cursor starts
at 0, then along any sequence of write events that respects the
`io::Write` contract, contains no hard error, and ends the connection,
the bytes pushed to the connection equal `resp` exactly — in order,
without duplication, however many partial or zero-byte writes occurred —
and the cursor ends exactly at the length of `resp`. -/
theorem response_bytes_written_exactly_once
    (resp : List Char) (h : ServerHandler) (ws : List WriteResult)
    (h1 : h.response = some resp) (h2 : h.write_pos = 0)
    (h3 : validWrites h ws = true)
    (h4 : ∀ w ∈ ws, w ≠ WriteResult.err ErrorKind.other)
    (h5 : (runWrites h ws).2.1 = Next.end_) :
    (runWrites h ws).2.2 = resp
    ∧ (runWrites h ws).1.write_pos = resp.length := by
  obtain ⟨_, _, _, htake, hend⟩ :=
    runWrites_spec resp ws h h1 (by omega) h3 h4
  have hfin := hend h5
  refine ⟨?_, hfin⟩
  rw [hfin, h2] at htake
  simpa [List.take_length] using htake.symm

/-- Witness for C2: the body "hi" delivered through a partial write, a
transient would-block failure, a second partial write and the final
end-detecting event. -/
theorem response_bytes_written_exactly_once_witness :
    (runWrites ⟨none, [], some ['h', 'i'], 0⟩
        [WriteResult.ok 1, WriteResult.err ErrorKind.wouldBlock,
          WriteResult.ok 1, WriteResult.ok 0]).2.2 = ['h', 'i']
    ∧ (runWrites ⟨none, [], some ['h', 'i'], 0⟩
        [WriteResult.ok 1, WriteResult.err ErrorKind.wouldBlock,
          WriteResult.ok 1, WriteResult.ok 0]).1.write_pos
      = (['h', 'i'] : List Char).length :=
  response_bytes_written_exactly_once ['h', 'i'] ⟨none, [], some ['h', 'i'], 0⟩
    [WriteResult.ok 1, WriteResult.err ErrorKind.wouldBlock,
      WriteResult.ok 1, WriteResult.ok 0]
    rfl rfl (by decide) (by decide) (by decide)

/-- Claim C4: a POST request whose body assembles to a text the dispatcher
answers with `out` produces response body `out` followed by a single
newline, and the response status is the success status (405 is only set
when no response body exists). -/
theorem post_yields_dispatcher_output_with_newline
    (c : Option AccessControlAllowOrigin) (d : Dispatcher) (rs : List ReadResult)
    (out : List Char)
    (hk : ∀ r ∈ rs, keepsReading r = true)
    (hd : d (joinAppended rs) = some out) :
    (runReads d (on_request (ServerHandler.new c) Method.post).1
        (rs ++ [ReadResult.ok []])).1.response = some (out ++ ['\n'])
    ∧ (on_response (runReads d (on_request (ServerHandler.new c) Method.post).1
        (rs ++ [ReadResult.ok []])).1).1.status = StatusCode.ok := by
  have h0 : (on_request (ServerHandler.new c) Method.post).1 = ServerHandler.new c := rfl
  rw [h0, runReads_complete d (ServerHandler.new c) rs hk]
  simp [ServerHandler.new, on_response, hd]

/-- Witness for C4: a one-chunk body answered by an echoing dispatcher. -/
theorem post_yields_dispatcher_output_with_newline_witness :
    (runReads (fun t => some t)
        (on_request (ServerHandler.new none) Method.post).1
        ([ReadResult.ok ['x']] ++ [ReadResult.ok []])).1.response
      = some (['x'] ++ ['\n'])
    ∧ (on_response (runReads (fun t => some t)
        (on_request (ServerHandler.new none) Method.post).1
        ([ReadResult.ok ['x']] ++ [ReadResult.ok []])).1).1.status = StatusCode.ok :=
  post_yields_dispatcher_output_with_newline none (fun t => some t)
    [ReadResult.ok ['x']] ['x'] (by decide) (by decide)

/-- Claim C5 counterexample: with response body "a" and cursor 0, a write
of 1 byte makes the cursor reach the body length, yet the handler does
not transition to Done: it requests another write event (`Next.write`),
contradicting the claim that it requests no further write event. -/
theorem write_completion_requests_another_write_event :
    (on_response_writable ⟨none, [], some ['a'], 0⟩ (WriteResult.ok 1)).1.write_pos
      = (['a'] : List Char).length
    ∧ (on_response_writable ⟨none, [], some ['a'], 0⟩ (WriteResult.ok 1)).2.1
      = Next.write
    ∧ ¬ (on_response_writable ⟨none, [], some ['a'], 0⟩ (WriteResult.ok 1)).2.1
      = Next.end_ := by
  decide

/-- Claim C5 (amended): in the writing state, a write of k>0 bytes advances
the cursor by k and the machine always requests another write event; if
the cursor has then reached the body length, the transition to Done
(`Next.end_`, no further I/O) happens at that next write event, whatever
its outcome. -/
theorem write_advances_cursor_and_rearms
    (h : ServerHandler) (resp : List Char) (k : Nat)
    (h1 : h.response = some resp) (h2 : ¬ resp.length = h.write_pos) (h3 : 0 < k) :
    (on_response_writable h (WriteResult.ok k)).1.write_pos = h.write_pos + k
    ∧ (on_response_writable h (WriteResult.ok k)).2.1 = Next.write
    ∧ (h.write_pos + k = resp.length →
        ∀ w', (on_response_writable
          (on_response_writable h (WriteResult.ok k)).1 w').2.1 = Next.end_) := by
  obtain ⟨c, q, ro, pos⟩ := h
  simp only at h1 h2 ⊢
  subst h1
  cases k with
  | zero => exact absurd h3 (lt_irrefl 0)
  | succ k =>
    have hstep : on_response_writable ⟨c, q, some resp, pos⟩ (WriteResult.ok (k + 1)) =
        (⟨c, q, some resp, pos + (k + 1)⟩, Next.write,
          (resp.drop pos).take (k + 1)) := by
      simp [on_response_writable, h2]
    rw [hstep]
    refine ⟨rfl, rfl, ?_⟩
    intro hc w'
    have hlen : resp.length = pos + (k + 1) := hc.symm
    simp [on_response_writable, hlen]

/-- Witness for C5 (amended): body "ab", cursor 0, one write of 2 bytes;
the following write event ends the connection. -/
theorem write_advances_cursor_and_rearms_witness :
    (on_response_writable ⟨none, [], some ['a', 'b'], 0⟩
        (WriteResult.ok 2)).1.write_pos = 0 + 2
    ∧ (on_response_writable ⟨none, [], some ['a', 'b'], 0⟩
        (WriteResult.ok 2)).2.1 = Next.write
    ∧ (0 + 2 = (['a', 'b'] : List Char).length →
        ∀ w', (on_response_writable
          (on_response_writable ⟨none, [], some ['a', 'b'], 0⟩
            (WriteResult.ok 2)).1 w').2.1 = Next.end_) :=
  write_advances_cursor_and_rearms ⟨none, [], some ['a', 'b'], 0⟩ ['a', 'b'] 2
    rfl (by decide) (by decide)

/-- Claim C6: a request whose method is neither OPTIONS nor POST leaves the
handler untouched (so the response body stays `None` and no read — hence
no dispatch — is ever requested), and the response carries the Method Not
Allowed status, the `Allow: OPTIONS, POST` header, and an empty body: the
first write event ends the connection having written nothing. -/
theorem unsupported_method_405
    (c : Option AccessControlAllowOrigin) (m : Method)
    (h1 : m ≠ Method.options) (h2 : m ≠ Method.post) :
    on_request (ServerHandler.new c) m = (ServerHandler.new c, Next.write)
    ∧ (ServerHandler.new c).response = none
    ∧ (on_response (ServerHandler.new c)).1.status = StatusCode.methodNotAllowed
    ∧ (on_response (ServerHandler.new c)).1.headers.allow = [Method.options, Method.post]
    ∧ ∀ w, on_response_writable (ServerHandler.new c) w
        = (ServerHandler.new c, Next.end_, []) := by
  refine ⟨?_, rfl, rfl, rfl, fun w => rfl⟩
  cases m <;> simp_all [on_request]

/-- Witness for C6 at the GET method. -/
theorem unsupported_method_405_witness :
    on_request (ServerHandler.new none) Method.get = (ServerHandler.new none, Next.write)
    ∧ (ServerHandler.new none).response = none
    ∧ (on_response (ServerHandler.new none)).1.status = StatusCode.methodNotAllowed
    ∧ (on_response (ServerHandler.new none)).1.headers.allow
        = [Method.options, Method.post]
    ∧ ∀ w, on_response_writable (ServerHandler.new none) w
        = (ServerHandler.new none, Next.end_, []) :=
  unsupported_method_405 none Method.get (by decide) (by decide)

/-- Claim C7: a POST connection whose reads proceed normally until a hard
(non-would-block) read error is abandoned: the handler ends the
connection (`Next.end_`), the dispatcher was never invoked (empty
invocation list), and no response body exists, so nothing is ever
written. -/
theorem hard_read_error_abandons_connection
    (c : Option AccessControlAllowOrigin) (d : Dispatcher) (rs : List ReadResult)
    (part : List Char) (hk : ∀ r ∈ rs, keepsReading r = true) :
    runReads d (on_request (ServerHandler.new c) Method.post).1
        (rs ++ [ReadResult.err part ErrorKind.other]) =
      ((⟨c, joinAppended rs ++ part, none, 0⟩ : ServerHandler), Next.end_, []) := by
  have h0 : (on_request (ServerHandler.new c) Method.post).1 = ServerHandler.new c := rfl
  rw [h0, runReads_keeps d rs (ServerHandler.new c) [ReadResult.err part ErrorKind.other] hk]
  simp [runReads, on_request_readable, ServerHandler.new]

/-- Witness for C7: one successful partial read, then a hard error. -/
theorem hard_read_error_abandons_connection_witness :
    runReads (fun t => some t) (on_request (ServerHandler.new none) Method.post).1
        ([ReadResult.ok ['a']] ++ [ReadResult.err ['b'] ErrorKind.other]) =
      ((⟨none, ['a'] ++ ['b'], none, 0⟩ : ServerHandler), Next.end_, []) := by
  have := hard_read_error_abandons_connection none (fun t => some t)
    [ReadResult.ok ['a']] ['b'] (by decide)
  simpa [joinAppended, appended] using this

/-- Claim C8: the Access-Control-Allow-Origin header equals the configured
CORS value on every response — present with the configured value when the
policy specifies a rule, absent when it does not — including the 405
responses, since `on_response` installs the same header set whatever the
status. -/
theorem cors_origin_header_iff_configured (h : ServerHandler) :
    (response_headers h).access_control_allow_origin = h.cors_domain
    ∧ (on_response h).1.headers.access_control_allow_origin = h.cors_domain :=
  ⟨rfl, rfl⟩

/-- Claim C3: on release of the handler, the registered panic callback is
invoked exactly once when the thread is unwinding and a callback is
registered; it is invoked zero times when no callback is registered, and
zero times on ordinary (non-panicking) completion whatever the registry
holds. -/
theorem panic_callback_iff_panicking {α : Type} (cb : α) (r : Option α) :
    serverHandler_drop true (some cb) = 1
    ∧ serverHandler_drop true (none : Option α) = 0
    ∧ serverHandler_drop false r = 0 :=
  ⟨rfl, rfl, rfl⟩

/-- Claim C10: a read event that fails with the transient would-block
condition keeps every body byte consumed before the failure — the request
buffer is exactly the old buffer followed by the salvaged bytes — and the
handler re-arms for another read; consequently a body delivered across a
would-block interruption still reaches the dispatcher as one full
concatenation, as the single invocation argument. -/
theorem would_block_read_retains_buffer
    (d : Dispatcher) (h : ServerHandler) (part : List Char)
    (c : Option AccessControlAllowOrigin) (rs1 rs2 : List ReadResult)
    (hk1 : ∀ r ∈ rs1, keepsReading r = true)
    (hk2 : ∀ r ∈ rs2, keepsReading r = true) :
    on_request_readable d h (ReadResult.err part ErrorKind.wouldBlock)
      = ({ h with request := h.request ++ part }, Next.read, none)
    ∧ (runReads d (on_request (ServerHandler.new c) Method.post).1
        (rs1 ++ ReadResult.err part ErrorKind.wouldBlock :: (rs2 ++ [ReadResult.ok []]))).2.2
      = [joinAppended rs1 ++ (part ++ joinAppended rs2)] := by
  refine ⟨rfl, ?_⟩
  have h0 : (on_request (ServerHandler.new c) Method.post).1 = ServerHandler.new c := rfl
  have hsplit : rs1 ++ ReadResult.err part ErrorKind.wouldBlock :: (rs2 ++ [ReadResult.ok []])
      = (rs1 ++ ReadResult.err part ErrorKind.wouldBlock :: rs2) ++ [ReadResult.ok []] := by
    simp
  have hkall : ∀ r ∈ rs1 ++ ReadResult.err part ErrorKind.wouldBlock :: rs2,
      keepsReading r = true := by
    intro r hr
    rcases List.mem_append.mp hr with hr1 | hr2
    · exact hk1 r hr1
    · rcases List.mem_cons.mp hr2 with heq | hr3
      · rw [heq]; rfl
      · exact hk2 r hr3
  rw [h0, hsplit, runReads_complete d (ServerHandler.new c) _ hkall]
  simp [ServerHandler.new, joinAppended_append, joinAppended, appended]

/-- Witness for C10: a would-block failure salvaging one byte between two
successful partial reads. -/
theorem would_block_read_retains_buffer_witness :
    on_request_readable (fun t => some t) (ServerHandler.new none)
        (ReadResult.err ['b'] ErrorKind.wouldBlock)
      = ({ ServerHandler.new none with
            request := (ServerHandler.new none).request ++ ['b'] }, Next.read, none)
    ∧ (runReads (fun t => some t) (on_request (ServerHandler.new none) Method.post).1
        ([ReadResult.ok ['a']] ++ ReadResult.err ['b'] ErrorKind.wouldBlock ::
          ([ReadResult.ok ['c']] ++ [ReadResult.ok []]))).2.2
      = [joinAppended [ReadResult.ok ['a']] ++ (['b'] ++ joinAppended [ReadResult.ok ['c']])] :=
  would_block_read_retains_buffer (fun t => some t) (ServerHandler.new none) ['b']
    none [ReadResult.ok ['a']] [ReadResult.ok ['c']] (by decide) (by decide)

/-- Claim C9: the write cursor starts at 0 at handler creation, is never
moved by the request or readable callbacks, is monotonically
non-decreasing under the writable callback, and whenever the response
body is set, the invariant cursor ≤ length of the body is established at
both places the body can be set (method recognition with cursor 0 and
dispatch completion with cursor 0) and preserved by every writable event
that respects the `io::Write` contract. -/
theorem write_cursor_invariant :
    (∀ c, (ServerHandler.new c).write_pos = 0)
    ∧ (∀ h m, (on_request h m).1.write_pos = h.write_pos)
    ∧ (∀ (d : Dispatcher) h r, (on_request_readable d h r).1.write_pos = h.write_pos)
    ∧ (∀ h w, h.write_pos ≤ (on_response_writable h w).1.write_pos)
    ∧ (∀ h w resp, h.response = some resp → h.write_pos ≤ resp.length →
        validWrite h w = true →
        (on_response_writable h w).1.response = some resp
        ∧ (on_response_writable h w).1.write_pos ≤ resp.length)
    ∧ (∀ (d : Dispatcher) h r resp, h.write_pos = 0 →
        (on_request_readable d h r).1.response = some resp →
        (on_request_readable d h r).1.write_pos ≤ resp.length)
    ∧ (∀ h m resp, h.write_pos = 0 → (on_request h m).1.response = some resp →
        (on_request h m).1.write_pos ≤ resp.length) := by
  refine ⟨fun c => rfl, on_request_write_pos, on_request_readable_write_pos,
    on_response_writable_mono, on_response_writable_bound, ?_, ?_⟩
  · intro d h r resp h0 _
    rw [on_request_readable_write_pos, h0]
    exact Nat.zero_le _
  · intro h m resp h0 _
    rw [on_request_write_pos, h0]
    exact Nat.zero_le _

/-- Witness for C9 at a concrete preserved step: body "ab", cursor 1,
a valid one-byte write. -/
theorem write_cursor_invariant_witness :
    (on_response_writable ⟨none, [], some ['a', 'b'], 1⟩
        (WriteResult.ok 1)).1.response = some ['a', 'b']
    ∧ (on_response_writable ⟨none, [], some ['a', 'b'], 1⟩
        (WriteResult.ok 1)).1.write_pos ≤ (['a', 'b'] : List Char).length :=
  write_cursor_invariant.2.2.2.2.1 ⟨none, [], some ['a', 'b'], 1⟩
    (WriteResult.ok 1) ['a', 'b'] rfl (by decide) (by decide)

end JsonRpcHttp
